import Mathlib

/-!
Shallow embedding of the multi-agent document-processing system
(classifier, email/json handlers, orchestrator, redis-backed memory manager).

Python strings are modelled as `List Char`; Python's `str.find`, `str.rfind`,
slicing, `strip`, `split`, `in` and `startswith`/`endswith` are given faithful
executable models below.  Python exceptions are modelled by an explicit
`PyExc` error type threaded through `Except`.  `json.loads` is modelled by an
executable recursive-descent parser over a JSON value type (`JsonVal`); the
model covers the JSON fragment exercised by this repository (no `\u` escapes
and no exponent notation in numbers; numbers are kept as a decimal
mantissa/scale pair, which avoids floating point while preserving the
parse/fail behaviour the code depends on).
-/

/-- Characters of a Python `str`, in order. -/
abbrev Chars := List Char

/-- Left brace character, written via its code point. -/
def lbrace : Char := Char.ofNat 123

/-- Right brace character, written via its code point. -/
def rbrace : Char := Char.ofNat 125

/-- Backslash character. -/
def bslash : Char := Char.ofNat 92

/-- Python `str.isspace` on the whitespace characters `str.strip` removes. -/
def pyIsSpace (c : Char) : Bool :=
  c == ' ' || c == '\t' || c == '\n' || c == '\r' || c == Char.ofNat 11 || c == Char.ofNat 12

/-- Python `s.strip()`: drop leading and trailing whitespace. -/
def pyStrip (l : Chars) : Chars :=
  ((l.dropWhile pyIsSpace).reverse.dropWhile pyIsSpace).reverse

/-- Index of the first occurrence of `pat` in `l` (Python `s.find(pat)`,
with `none` standing for the `-1` "not found" result). -/
def findSub (pat : Chars) : Chars → Option Nat
  | [] => if pat.isEmpty then some 0 else none
  | c :: rest =>
    if pat.isPrefixOf (c :: rest) then some 0 else (findSub pat rest).map (· + 1)

/-- Python `s.find(pat, start)`: absolute index of the first occurrence of
`pat` at or after position `start`. -/
def findSubFrom (pat : Chars) (start : Nat) (l : Chars) : Option Nat :=
  (findSub pat (l.drop start)).map (· + start)

/-- Python `pat in s` substring containment. -/
def containsSub (pat : Chars) (l : Chars) : Bool :=
  (findSub pat l).isSome

/-- Python `s.rfind(c)` for a single character: index of last occurrence. -/
def rfindChar (c : Char) (l : Chars) : Option Nat :=
  (l.reverse.findIdx? (· == c)).map (fun i => l.length - 1 - i)

/-- Clamp a (possibly negative) Python slice bound into `[0, len]`. -/
def pyBound (len : Nat) (i : Int) : Nat :=
  (if i < 0 then max (i + len) 0 else min i len).toNat

/-- Python slice `l[a:b]` with Python's negative-index and clamping rules. -/
def pySlice (l : Chars) (a b : Int) : Chars :=
  (l.take (pyBound l.length b)).drop (pyBound l.length a)

/-- Python `l[:n]` for a nonnegative bound (content truncation). -/
def pyTake (n : Nat) (l : Chars) : Chars := l.take n

/-- Python `s.split('\n')`. -/
def splitNl : Chars → List Chars
  | [] => [[]]
  | c :: rest =>
    let r := splitNl rest
    if c == '\n' then [] :: r
    else
      match r with
      | [] => [[c]]
      | h :: t => (c :: h) :: t

/-- Python `'\n'.join(lines)`. -/
def joinNl (ls : List Chars) : Chars :=
  List.intercalate ['\n'] ls

mutual

/-- JSON values as produced by `json.loads`: numbers are kept as
`mantissa · 10^(-exp10)` to stay away from floating point. -/
inductive JsonVal where
  | null : JsonVal
  | bool (b : Bool) : JsonVal
  | num (mantissa : Int) (exp10 : Nat) : JsonVal
  | str (s : String) : JsonVal
  | arr (items : JsonArr) : JsonVal
  | obj (fields : JsonObj) : JsonVal

/-- The item list of a JSON array. -/
inductive JsonArr where
  | nil : JsonArr
  | cons (hd : JsonVal) (tl : JsonArr) : JsonArr

/-- The key/value field list of a JSON object, in source order. -/
inductive JsonObj where
  | nil : JsonObj
  | cons (key : String) (val : JsonVal) (tl : JsonObj) : JsonObj

end

deriving instance DecidableEq for JsonVal, JsonArr, JsonObj

/-- Build a JSON object field list from a Lean list literal. -/
def JsonObj.ofList : List (String × JsonVal) → JsonObj
  | [] => .nil
  | (k, v) :: rest => .cons k v (JsonObj.ofList rest)

/-- Build a JSON array from a Lean list literal. -/
def JsonArr.ofList : List JsonVal → JsonArr
  | [] => .nil
  | v :: rest => .cons v (JsonArr.ofList rest)

/-- JSON whitespace accepted between tokens by `json.loads`. -/
def jsonWs (c : Char) : Bool :=
  c == ' ' || c == '\t' || c == '\n' || c == '\r'

/-- Skip JSON inter-token whitespace. -/
def skipWs (l : Chars) : Chars := l.dropWhile jsonWs

/-- Numeric value of a decimal digit character. -/
def digitVal (c : Char) : Nat := c.toNat - 48

/-- Parse a maximal run of decimal digits: value, digit count, and rest. -/
def parseDigits (l : Chars) : Option (Nat × Nat × Chars) :=
  let ds := l.takeWhile Char.isDigit
  if ds.isEmpty then none
  else some (ds.foldl (fun acc c => acc * 10 + digitVal c) 0, ds.length, l.drop ds.length)

/-- Parse a JSON number (optional minus, integer part, optional fraction). -/
def parseNum (l : Chars) : Except String (JsonVal × Chars) :=
  let p : Bool × Chars :=
    match l with
    | c :: rest => if c == '-' then (true, rest) else (false, l)
    | [] => (false, l)
  match parseDigits p.2 with
  | none => .error "Expecting value"
  | some (ip, _, r1) =>
    match r1 with
    | c :: rest =>
      if c == '.' then
        match parseDigits rest with
        | none => .error "Expecting value"
        | some (fp, fc, r2) =>
          let m : Int := ((ip * 10 ^ fc + fp : Nat) : Int)
          .ok (.num (if p.1 then -m else m) fc, r2)
      else .ok (.num (if p.1 then -(ip : Int) else (ip : Int)) 0, r1)
    | [] => .ok (.num (if p.1 then -(ip : Int) else (ip : Int)) 0, [])

/-- Translate a JSON string escape character (the simple escapes). -/
def escChar (c : Char) : Option Char :=
  if c == '"' then some '"'
  else if c == bslash then some bslash
  else if c == '/' then some '/'
  else if c == 'n' then some '\n'
  else if c == 't' then some '\t'
  else if c == 'r' then some '\r'
  else if c == 'b' then some (Char.ofNat 8)
  else if c == 'f' then some (Char.ofNat 12)
  else none

/-- Parse the body of a JSON string after the opening quote, consuming the
closing quote. -/
def parseStrBody (fuel : Nat) (l : Chars) : Except String (Chars × Chars) :=
  match fuel, l with
  | 0, _ => .error "Unterminated string"
  | _ + 1, [] => .error "Unterminated string"
  | fuel + 1, c :: rest =>
    if c == '"' then .ok ([], rest)
    else if c == bslash then
      match rest with
      | [] => .error "Unterminated string"
      | e :: rest2 =>
        match escChar e with
        | none => .error "Invalid escape"
        | some ec =>
          match parseStrBody fuel rest2 with
          | .error m => .error m
          | .ok (s, r) => .ok (ec :: s, r)
    else
      match parseStrBody fuel rest with
      | .error m => .error m
      | .ok (s, r) => .ok (c :: s, r)

mutual

/-- Parse one JSON value (leading whitespace allowed). -/
def parseVal (fuel : Nat) (l : Chars) : Except String (JsonVal × Chars) :=
  match fuel with
  | 0 => .error "Expecting value"
  | fuel + 1 =>
    match skipWs l with
    | [] => .error "Expecting value"
    | c :: rest =>
      if c == '"' then
        match parseStrBody (fuel + 1) rest with
        | .error m => .error m
        | .ok (s, r) => .ok (.str (String.mk s), r)
      else if c == lbrace then parseObj fuel rest
      else if c == '[' then parseArr fuel rest
      else if c == 't' then
        if ['r', 'u', 'e'].isPrefixOf rest then .ok (.bool true, rest.drop 3)
        else .error "Expecting value"
      else if c == 'f' then
        if ['a', 'l', 's', 'e'].isPrefixOf rest then .ok (.bool false, rest.drop 4)
        else .error "Expecting value"
      else if c == 'n' then
        if ['u', 'l', 'l'].isPrefixOf rest then .ok (.null, rest.drop 3)
        else .error "Expecting value"
      else if c == '-' || c.isDigit then parseNum (c :: rest)
      else .error "Expecting value"

/-- Parse a JSON object after the opening brace. -/
def parseObj (fuel : Nat) (l : Chars) : Except String (JsonVal × Chars) :=
  match fuel with
  | 0 => .error "Expecting value"
  | fuel + 1 =>
    match skipWs l with
    | [] => .error "Expecting property name"
    | c :: rest =>
      if c == rbrace then .ok (.obj .nil, rest)
      else
        match parseMembers fuel (c :: rest) with
        | .error m => .error m
        | .ok (fs, r) => .ok (.obj fs, r)

/-- Parse the members of a JSON object (at a property name). -/
def parseMembers (fuel : Nat) (l : Chars) :
    Except String (JsonObj × Chars) :=
  match fuel with
  | 0 => .error "Expecting property name"
  | fuel + 1 =>
    match skipWs l with
    | [] => .error "Expecting property name"
    | c :: rest =>
      if c == '"' then
        match parseStrBody (fuel + 1) rest with
        | .error m => .error m
        | .ok (k, r1) =>
          match skipWs r1 with
          | ':' :: r2 =>
            match parseVal fuel r2 with
            | .error m => .error m
            | .ok (v, r3) =>
              match skipWs r3 with
              | ',' :: r4 =>
                match parseMembers fuel r4 with
                | .error m => .error m
                | .ok (fs, r5) => .ok (.cons (String.mk k) v fs, r5)
              | c2 :: r4 =>
                if c2 == rbrace then .ok (.cons (String.mk k) v .nil, r4)
                else .error "Expecting delimiter"
              | [] => .error "Expecting delimiter"
          | _ => .error "Expecting colon delimiter"
      else .error "Expecting property name"

/-- Parse a JSON array after the opening bracket. -/
def parseArr (fuel : Nat) (l : Chars) : Except String (JsonVal × Chars) :=
  match fuel with
  | 0 => .error "Expecting value"
  | fuel + 1 =>
    match skipWs l with
    | [] => .error "Expecting value"
    | c :: rest =>
      if c == ']' then .ok (.arr .nil, rest)
      else
        match parseItems fuel (c :: rest) with
        | .error m => .error m
        | .ok (vs, r) => .ok (.arr vs, r)

/-- Parse the comma-separated items of a JSON array. -/
def parseItems (fuel : Nat) (l : Chars) : Except String (JsonArr × Chars) :=
  match fuel with
  | 0 => .error "Expecting value"
  | fuel + 1 =>
    match parseVal fuel l with
    | .error m => .error m
    | .ok (v, r1) =>
      match skipWs r1 with
      | ',' :: r2 =>
        match parseItems fuel r2 with
        | .error m => .error m
        | .ok (vs, r3) => .ok (.cons v vs, r3)
      | c :: r2 =>
        if c == ']' then .ok (.cons v .nil, r2) else .error "Expecting delimiter"
      | [] => .error "Expecting delimiter"

end

/-- Model of `json.loads`: parse one value, then require only trailing
whitespace.  The fuel is generous enough for any input of the given length. -/
def jsonParse (l : Chars) : Except String JsonVal :=
  match parseVal (4 * l.length + 8) l with
  | .error e => .error e
  | .ok (v, rest) => if (skipWs rest).isEmpty then .ok v else .error "Extra data"

/-- Python `d[k]` on a parsed JSON object keeps the last binding of a
duplicated key, like the `dict` built by `json.loads`. -/
def jvLookup (fields : JsonObj) (k : String) : Option JsonVal :=
  match fields with
  | .nil => none
  | .cons k1 v1 tl =>
    match jvLookup tl k with
    | some v => some v
    | none => if k1 == k then some v1 else none

/-- Membership of a key in a parsed JSON object (`k in d`). -/
def jvHasKey (v : JsonVal) (k : String) : Bool :=
  match v with
  | .obj fs => (jvLookup fs k).isSome
  | _ => false

/-- The backtick character, written via its code point. -/
def btick : Char := Char.ofNat 96

/-- The fence tag searched for first by the response normalization
(the Python literal is the three-backtick string followed by `json`). -/
def fenceJson : Chars := [btick, btick, btick, 'j', 's', 'o', 'n']

/-- A generic code fence marker (the three-backtick Python literal). -/
def fence3 : Chars := [btick, btick, btick]

/-- Fence handling stage of the shared response normalization: extract a
```json fenced block (Python `raw_content[start:end].strip()` where `end`
is `-1` when no closing fence follows), or strip a generic fence's first
and last lines. -/
def fenceStage (raw0 : Chars) : Chars :=
  if containsSub fenceJson raw0 then
    let start := (findSub fenceJson raw0).getD 0 + 7
    let endI : Int :=
      match findSubFrom fence3 start raw0 with
      | some j => (j : Int)
      | none => -1
    pyStrip (pySlice raw0 (start : Int) endI)
  else if fence3.isPrefixOf raw0 then
    joinNl (((splitNl raw0).drop 1).dropLast)
  else raw0

/-- Brace trimming stage of the shared response normalization: cut to the
first left brace and the last right brace, when present. -/
def braceTrim (raw1 : Chars) : Chars :=
  let raw2 :=
    if raw1.head? == some lbrace then raw1
    else
      match raw1.findIdx? (· == lbrace) with
      | some i => raw1.drop i
      | none => raw1
  if raw2.getLast? == some rbrace then raw2
  else
    match rfindChar rbrace raw2 with
    | some j => raw2.take (j + 1)
    | none => raw2

/-- The response-normalization string surgery shared verbatim by
`ClassifierAgent.process`, `EmailAgent.process` and `JSONAgent.process`:
strip, extract a ```json fenced block (or strip a generic fence's first and
last lines), then trim to the first left brace and last right brace. -/
def normalizeResponse (resp : Chars) : Chars :=
  braceTrim (fenceStage (pyStrip resp))

/-- The `DocumentFormat` enum of `schema/models.py`. -/
inductive DocumentFormat where
  | pdf : DocumentFormat
  | json : DocumentFormat
  | email : DocumentFormat
deriving DecidableEq

/-- The serialized value of a `DocumentFormat` member. -/
def DocumentFormat.value : DocumentFormat → String
  | .pdf => "pdf"
  | .json => "json"
  | .email => "email"

/-- Python `DocumentFormat(s)` lookup-by-value; `none` models the
`ValueError` raised on an unknown value. -/
def DocumentFormat.ofValue (s : String) : Option DocumentFormat :=
  if s = "pdf" then some .pdf
  else if s = "json" then some .json
  else if s = "email" then some .email
  else none

/-- The `DocumentIntent` enum of `schema/models.py`. -/
inductive DocumentIntent where
  | invoice : DocumentIntent
  | rfq : DocumentIntent
  | complaint : DocumentIntent
  | regulation : DocumentIntent
  | general : DocumentIntent
deriving DecidableEq

/-- The serialized value of a `DocumentIntent` member. -/
def DocumentIntent.value : DocumentIntent → String
  | .invoice => "invoice"
  | .rfq => "rfq"
  | .complaint => "complaint"
  | .regulation => "regulation"
  | .general => "general"

/-- Python `DocumentIntent(s)` lookup-by-value; `none` models the
`ValueError` raised on an unknown value. -/
def DocumentIntent.ofValue (s : String) : Option DocumentIntent :=
  if s = "invoice" then some .invoice
  else if s = "rfq" then some .rfq
  else if s = "complaint" then some .complaint
  else if s = "regulation" then some .regulation
  else if s = "general" then some .general
  else none

/-- Arguments of `MemoryManager.store_entry`. -/
structure StoreArgs where
  source : String
  documentType : DocumentFormat
  intent : DocumentIntent
  extractedValues : JsonVal
  threadId : Option String := none
  conversationId : Option String := none
deriving DecidableEq

/-- The redis hash written for one entry (`memory:{id}`), after
serialization: enums as their `.value` strings, `None` optionals as the
empty-string sentinel (the `if value is None: entry_data[key] = ""` loop).
The timestamp is a logical tick standing for the ISO-serialized creation
datetime, and `extracted_values` is the JSON document whose `json.dumps`
text is stored; both Python library round-trips (`fromisoformat ∘ isoformat`
and `loads ∘ dumps`) are modelled as exact. -/
structure StoredRecord where
  id : String
  source : String
  document_type : String
  intent : String
  timestamp : Nat
  extracted_values : JsonVal
  thread_id : String
  conversation_id : String
deriving DecidableEq

/-- One secondary-index redis set, identified by family and key. -/
inductive IndexKey where
  | byType (v : String) : IndexKey
  | byIntent (v : String) : IndexKey
  | byThread (t : String) : IndexKey
  | byConversation (c : String) : IndexKey
deriving DecidableEq

/-- One redis command issued by `store_entry`, in program order. -/
inductive StoreEffect where
  | hset (id : String) (rec : StoredRecord) : StoreEffect
  | sadd (ix : IndexKey) (member : String) : StoreEffect
  | expire (id : String) (seconds : Nat) : StoreEffect
deriving DecidableEq

/-- The redis state visible to the memory manager: primary hashes keyed by
entry id, and the secondary-index sets.  `nextId` feeds the uuid generator
and `clock` the creation timestamps. -/
structure MemoryState where
  records : List (String × StoredRecord)
  indices : List (IndexKey × List String)
  nextId : Nat
  clock : Nat
deriving DecidableEq

/-- Fresh id produced by `uuid.uuid4()`, modelled as a counter. -/
def uuidGen (n : Nat) : String := "uuid-" ++ toString n

/-- Add a member to an index set (`SADD`): no duplicates. -/
def saddTo (ixs : List (IndexKey × List String)) (k : IndexKey) (m : String) :
    List (IndexKey × List String) :=
  match ixs with
  | [] => [(k, [m])]
  | (k1, ms) :: rest =>
    if k1 = k then (k1, if ms.contains m then ms else ms ++ [m]) :: rest
    else (k1, ms) :: saddTo rest k m

/-- Apply one redis command.  `HSET` on the fresh uuid key prepends the
record (first-match lookup gives redis's overwrite semantics); `EXPIRE`
only sets a TTL, and the passage of time is not modelled, so it leaves the
state unchanged. -/
def applyEffect (s : MemoryState) : StoreEffect → MemoryState
  | .hset id rec => { s with records := (id, rec) :: s.records }
  | .sadd ix m => { s with indices := saddTo s.indices ix m }
  | .expire _ _ => s

/-- Serialize a `MemoryEntry` into its stored hash, as `store_entry` does
before writing. -/
def serializeRecord (eid : String) (ts : Nat) (a : StoreArgs) : StoredRecord :=
  { id := eid
    source := a.source
    document_type := a.documentType.value
    intent := a.intent.value
    timestamp := ts
    extracted_values := a.extractedValues
    thread_id := a.threadId.getD ""
    conversation_id := a.conversationId.getD "" }

/-- The index updates and TTL command issued by `store_entry` after the
primary write: the `SADD`s (thread/conversation only when the key is
truthy, i.e. present and non-empty), then `EXPIRE`. -/
def storeTail (eid : String) (a : StoreArgs) : List StoreEffect :=
  StoreEffect.sadd (.byType a.documentType.value) eid ::
  StoreEffect.sadd (.byIntent a.intent.value) eid ::
  ((match a.threadId with
    | some t => if t == "" then [] else [StoreEffect.sadd (.byThread t) eid]
    | none => [])
   ++ (match a.conversationId with
       | some c => if c == "" then [] else [StoreEffect.sadd (.byConversation c) eid]
       | none => [])
   ++ [StoreEffect.expire eid (30 * 24 * 3600)])

/-- The sequence of redis commands issued by `store_entry`, in program
order: the primary `HSET` first, then the index updates and `EXPIRE`. -/
def storeEffects (s : MemoryState) (a : StoreArgs) : List StoreEffect :=
  let eid := uuidGen s.nextId
  StoreEffect.hset eid (serializeRecord eid s.clock a) :: storeTail eid a

/-- `MemoryManager.store_entry`: run the commands in order and return the
new entry's id. -/
def storeEntry (s : MemoryState) (a : StoreArgs) : String × MemoryState :=
  let eid := uuidGen s.nextId
  let s1 := (storeEffects s a).foldl applyEffect s
  (eid, { s1 with nextId := s.nextId + 1, clock := s.clock + 1 })

/-- A deserialized entry as reconstructed by `get_entry`
(`MemoryEntry.model_validate`). -/
structure MemoryEntry where
  id : String
  source : String
  documentType : DocumentFormat
  intent : DocumentIntent
  timestamp : Nat
  extractedValues : JsonVal
  threadId : Option String
  conversationId : Option String
deriving DecidableEq

/-- `MemoryManager.get_entry`: read the primary hash, decode the timestamp
and payload, turn the empty-string sentinel of `thread_id` /
`conversation_id` back into absence, and validate the enums.  A missing
hash gives `none`; enum validation cannot fail on records this model
writes. -/
def getEntry (s : MemoryState) (eid : String) : Option MemoryEntry :=
  match s.records.lookup eid with
  | none => none
  | some r =>
    match DocumentFormat.ofValue r.document_type, DocumentIntent.ofValue r.intent with
    | some dt, some it =>
      some { id := r.id
             source := r.source
             documentType := dt
             intent := it
             timestamp := r.timestamp
             extractedValues := r.extracted_values
             threadId := if r.thread_id == "" then none else some r.thread_id
             conversationId := if r.conversation_id == "" then none else some r.conversation_id }
    | _, _ => none

/-- Members of one index set (`SMEMBERS`). -/
def indexMembers (s : MemoryState) (k : IndexKey) : List String :=
  (s.indices.lookup k).getD []

/-- Ascending-timestamp comparison used by `sorted(key=lambda x: x.timestamp)`. -/
def tsAsc (a b : MemoryEntry) : Bool := a.timestamp ≤ b.timestamp

/-- Descending-timestamp comparison used by `sorted(..., reverse=True)`. -/
def tsDesc (a b : MemoryEntry) : Bool := b.timestamp ≤ a.timestamp

/-- `MemoryManager.get_entries_by_thread`: fetch every id in the thread
index, skip missing records, sort ascending by timestamp. -/
def getEntriesByThread (s : MemoryState) (tid : String) : List MemoryEntry :=
  (((indexMembers s (.byThread tid)).filterMap (getEntry s))).mergeSort tsAsc

/-- `MemoryManager.get_entries_by_type`: fetch every id in the type index,
skip missing records, sort descending by timestamp. -/
def getEntriesByType (s : MemoryState) (dt : DocumentFormat) : List MemoryEntry :=
  (((indexMembers s (.byType dt.value)).filterMap (getEntry s))).mergeSort tsDesc

/-- `MemoryManager.get_recent_context`: scan all `memory:*` keys, fetch
each entry, sort descending by timestamp, truncate to `limit`. -/
def getRecentContext (s : MemoryState) (limit : Nat) : List MemoryEntry :=
  (((s.records.map (·.1)).filterMap (getEntry s)).mergeSort tsDesc).take limit

/-- The crash-consistency invariant of the entry store: every id found in
any secondary-index set has a backing primary record. -/
def noDangling (s : MemoryState) : Bool :=
  s.indices.all (fun p => p.2.all (fun m => (s.records.lookup m).isSome))

/-- Python exceptions that the embedded code can raise or catch. -/
inductive PyExc where
  | valueError (msg : String) : PyExc
  | keyError (k : String) : PyExc
  | typeError (msg : String) : PyExc
  | attributeError (msg : String) : PyExc
  | modelError (msg : String) : PyExc
deriving DecidableEq

/-- Python `str(e)` for the exceptions above (`KeyError` renders the quoted
key). -/
def PyExc.message : PyExc → String
  | .valueError m => m
  | .keyError k => "'" ++ k ++ "'"
  | .typeError m => m
  | .attributeError m => m
  | .modelError m => m

/-- Python `d[k]` subscription of a parsed JSON value: `KeyError` on a
missing key, `TypeError` on a non-object. -/
def jvGetItem (v : JsonVal) (k : String) : Except PyExc JsonVal :=
  match v with
  | .obj fs =>
    match jvLookup fs k with
    | some x => .ok x
    | none => .error (.keyError k)
  | _ => .error (.typeError "object is not subscriptable")

/-- Lower-case one character (the ASCII range that the repository's intent
strings use). -/
def pyLowerChar (c : Char) : Char :=
  if 65 ≤ c.toNat ∧ c.toNat ≤ 90 then Char.ofNat (c.toNat + 32) else c

/-- Python `s.lower()` on the ASCII strings this system compares. -/
def pyLowerStr (s : String) : String := String.mk (s.toList.map pyLowerChar)

/-- Python `x.lower()` on a context value: works on strings, raises
`AttributeError` otherwise. -/
def pyLowerJv : JsonVal → Except PyExc String
  | .str s => .ok (pyLowerStr s)
  | _ => .error (.attributeError "object has no attribute lower")

/-- Python `DocumentFormat(x)` on a JSON dict value. -/
def documentFormatOfJv (v : JsonVal) : Except PyExc DocumentFormat :=
  match v with
  | .str s =>
    match DocumentFormat.ofValue s with
    | some f => .ok f
    | none => .error (.valueError ("'" ++ s ++ "' is not a valid DocumentFormat"))
  | _ => .error (.valueError "is not a valid DocumentFormat")

/-- Python `DocumentIntent(x)` on a JSON dict value. -/
def documentIntentOfJv (v : JsonVal) : Except PyExc DocumentIntent :=
  match v with
  | .str s =>
    match DocumentIntent.ofValue s with
    | some i => .ok i
    | none => .error (.valueError ("'" ++ s ++ "' is not a valid DocumentIntent"))
  | _ => .error (.valueError "is not a valid DocumentIntent")

/-- The result dict an agent's `process` returns; `none` fields model keys
absent from the dict (`"error" in result` tests `error.isSome`). -/
structure AgentResult where
  success : Bool
  classification : Option JsonVal := none
  result : Option JsonVal := none
  routingTarget : Option JsonVal := none
  error : Option String := none
  memoryId : Option String := none
deriving DecidableEq

/-- The classifier's parse-failure fallback dict, exactly as written in
`ClassifierAgent.process` (note the upper-case enum strings). -/
def classifierFallback (parseErr : String) : JsonVal :=
  .obj (.ofList [
    ("format", .str "EMAIL"),
    ("intent", .str "GENERAL"),
    ("confidence", .num 5 1),
    ("reasoning", .str ("Failed to parse LLM response as JSON: " ++ parseErr)),
    ("routing_target", .str "email_agent")])

/-- The classification dict after the classifier's inner try/except: the
parsed normalized response, or the fallback on `json.JSONDecodeError`. -/
def classifierData (resp : Chars) : JsonVal :=
  match jsonParse (normalizeResponse resp) with
  | .ok v => v
  | .error m => classifierFallback m

/-- The `extracted_values` payload of the classifier's error entry. -/
def classifierErrorValues (content : Chars) (e : PyExc) : JsonVal :=
  .obj (.ofList [
    ("error", .str "Classification failed"),
    ("error_details", .str e.message),
    ("content_preview", .str (String.mk (pyTake 500 content)))])

/-- The body of the classifier's outer `try` after the model call returned
`resp`: build the classification dict, convert the enums, store the entry,
then read the routing target.  Any raised exception carries the state at
the point of the raise. -/
def classifierBody (content resp : Chars) (s : MemoryState) :
    Except (PyExc × MemoryState) (AgentResult × MemoryState) :=
  let data := classifierData resp
  match jvGetItem data "format" with
  | .error e => .error (e, s)
  | .ok fv =>
    match documentFormatOfJv fv with
    | .error e => .error (e, s)
    | .ok fmt =>
      match jvGetItem data "intent" with
      | .error e => .error (e, s)
      | .ok iv =>
        match documentIntentOfJv iv with
        | .error e => .error (e, s)
        | .ok it =>
          let p := storeEntry s
            { source := "classifier_agent"
              documentType := fmt
              intent := it
              extractedValues := .obj (.ofList [
                ("classification", data),
                ("content_preview", .str (String.mk (pyTake 500 content)))]) }
          match jvGetItem data "routing_target" with
          | .error e => .error (e, p.2)
          | .ok rt =>
            .ok ({ success := true
                   classification := some data
                   routingTarget := some rt
                   memoryId := some p.1 }, p.2)

/-- `ClassifierAgent.process`: the model call either raises (`mo` is an
error) or returns text; the outer `except Exception` stores an error entry
and still reports `routing_target = "email_agent"`. -/
def classifierProcess (content : Chars) (mo : Except PyExc Chars) (s : MemoryState) :
    AgentResult × MemoryState :=
  let attempt : Except (PyExc × MemoryState) (AgentResult × MemoryState) :=
    match mo with
    | .error e => .error (e, s)
    | .ok resp => classifierBody content resp s
  match attempt with
  | .ok r => r
  | .error (e, s1) =>
    let p := storeEntry s1
      { source := "classifier_agent"
        documentType := .email
        intent := .general
        extractedValues := classifierErrorValues content e }
    ({ success := false
       error := some ("Classification failed: " ++ e.message)
       routingTarget := some (.str "email_agent")
       memoryId := some p.1 }, p.2)

/-- The email handler's parse-failure fallback dict, as written in
`EmailAgent.process`. -/
def emailFallback (parseErr : String) : JsonVal :=
  .obj (.ofList [
    ("sender", .str "unknown@example.com"),
    ("subject", .str "Processing failed"),
    ("urgency", .str "MEDIUM"),
    ("sentiment", .str "neutral"),
    ("key_points", .arr (.ofList [.str ("Failed to parse response: " ++ parseErr)])),
    ("crm_summary", .str "Email processing error"),
    ("follow_up_required", .bool false),
    ("contact_info_extracted", .obj .nil)])

/-- The JSON handler's parse-failure fallback dict, as written in
`JSONAgent.process`. -/
def jsonFallback (parseErr : String) : JsonVal :=
  .obj (.ofList [
    ("validation_passed", .bool false),
    ("missing_fields", .arr .nil),
    ("anomalies", .arr (.ofList [.str ("Failed to parse LLM response: " ++ parseErr)])),
    ("reformatted_data", .obj .nil),
    ("summary", .str "Processing failed"),
    ("key_insights", .arr .nil)])

/-- The four points on which `EmailAgent.process` and `JSONAgent.process`
differ; the rest of the two method bodies is textually identical in the
source, so they are embedded once, parameterized by this record. -/
structure HandlerCfg where
  sourceName : String
  docType : DocumentFormat
  fallback : String → JsonVal
  errLabel : String

/-- Configuration matching `EmailAgent` (always stores format `email`). -/
def emailCfg : HandlerCfg :=
  { sourceName := "email_agent", docType := .email,
    fallback := emailFallback, errLabel := "Email processing failed" }

/-- Configuration matching `JSONAgent` (always stores format `json`). -/
def jsonCfg : HandlerCfg :=
  { sourceName := "json_agent", docType := .json,
    fallback := jsonFallback, errLabel := "JSON processing failed" }

/-- The analysis dict after a handler's inner try/except: parsed normalized
response, or the handler's fallback on `json.JSONDecodeError`. -/
def handlerData (cfg : HandlerCfg) (resp : Chars) : JsonVal :=
  match jsonParse (normalizeResponse resp) with
  | .ok v => v
  | .error m => cfg.fallback m

/-- A handler's `try` body after the model call returned `resp`: build the
analysis, lower-case and validate the context intent, store the entry. -/
def handlerBody (cfg : HandlerCfg) (content resp : Chars) (ctxIntent : JsonVal)
    (s : MemoryState) : Except (PyExc × MemoryState) (AgentResult × MemoryState) :=
  let analysis := handlerData cfg resp
  match pyLowerJv ctxIntent with
  | .error e => .error (e, s)
  | .ok low =>
    match DocumentIntent.ofValue low with
    | none => .error (.valueError ("'" ++ low ++ "' is not a valid DocumentIntent"), s)
    | some it =>
      let p := storeEntry s
        { source := cfg.sourceName
          documentType := cfg.docType
          intent := it
          extractedValues := .obj (.ofList [
            ("analysis", analysis),
            ("original_content", .str (String.mk (pyTake 1000 content)))]) }
      .ok ({ success := true, result := some analysis, memoryId := some p.1 }, p.2)

/-- `EmailAgent.process` / `JSONAgent.process`: run the body; the outer
`except Exception` stores the handler's error entry (intent `general`,
its fixed document type) and returns a failure dict. -/
def handlerProcess (cfg : HandlerCfg) (content : Chars) (mo : Except PyExc Chars)
    (ctxIntent : JsonVal) (s : MemoryState) : AgentResult × MemoryState :=
  let attempt : Except (PyExc × MemoryState) (AgentResult × MemoryState) :=
    match mo with
    | .error e => .error (e, s)
    | .ok resp => handlerBody cfg content resp ctxIntent s
  match attempt with
  | .ok r => r
  | .error (e, s1) =>
    let p := storeEntry s1
      { source := cfg.sourceName
        documentType := cfg.docType
        intent := .general
        extractedValues := .obj (.ofList [
          ("error", .str cfg.errLabel),
          ("error_details", .str e.message),
          ("content_preview", .str (String.mk (pyTake 500 content)))]) }
    ({ success := false
       error := some (cfg.errLabel ++ ": " ++ e.message)
       memoryId := some p.1 }, p.2)

/-- The `ProcessingResponse` model returned by the orchestrator. -/
structure ProcessingResponse where
  success : Bool
  message : String
  data : Option JsonVal := none
  memoryId : Option String := none
deriving DecidableEq

/-- Rendering of a routing target into an f-string (only string targets
reach the messages this model builds). -/
def jvPlainStr : JsonVal → String
  | .str s => s
  | _ => ""

/-- Python `d[k] = v` on an assoc-list model of a dict. -/
def dictSet (d : List (String × JsonVal)) (k : String) (v : JsonVal) :
    List (String × JsonVal) :=
  if d.any (fun p => p.1 == k) then d.map (fun p => if p.1 == k then (k, v) else p)
  else d ++ [(k, v)]

/-- Python `d.update(m)`. -/
def dictUpdate (d m : List (String × JsonVal)) : List (String × JsonVal) :=
  m.foldl (fun acc p => dictSet acc p.1 p.2) d

/-- Python `d.get(k)` (first binding; keys are unique in these dicts). -/
def dictGet (d : List (String × JsonVal)) (k : String) : Option JsonVal :=
  (d.find? (fun p => p.1 == k)).map (·.2)

/-- The `TypeError` raised inside the orchestrator's `except` block: its
call to `store_entry` passes no `intent`, a required parameter, so argument
binding fails before any store effect happens. -/
def orchestratorStoreError : PyExc :=
  .typeError "store_entry() missing 1 required positional argument: 'intent'"

/-- `AgentOrchestrator.process_document`.  `cmo`/`hmo` are the outcomes of
the classifier's and handler's model calls.  The final result is
`Except PyExc`: an `.error` means an exception escaped `process_document`
to the caller (which happens exactly when the `except` block runs, because
its own `store_entry` call raises `orchestratorStoreError`). -/
def processDocument (content : Chars) (metadata : Option (List (String × JsonVal)))
    (cmo hmo : Except PyExc Chars) (s : MemoryState) :
    Except PyExc ProcessingResponse × MemoryState :=
  let q := classifierProcess content cmo s
  let cr := q.1
  let s1 := q.2
  if cr.error.isSome then
    (.ok { success := false
           message := "Classification failed: " ++ cr.error.getD ""
           memoryId := cr.memoryId }, s1)
  else
    let rt := cr.routingTarget.getD .null
    let cd := cr.classification.getD .null
    match rt with
    | .arr _ => (.error orchestratorStoreError, s1)
    | .obj _ => (.error orchestratorStoreError, s1)
    | _ =>
      if rt = JsonVal.str "json_agent" ∨ rt = JsonVal.str "email_agent" then
        match jvGetItem cd "intent" with
        | .error _ => (.error orchestratorStoreError, s1)
        | .ok iv =>
          match jvGetItem cd "format" with
          | .error _ => (.error orchestratorStoreError, s1)
          | .ok fv =>
            match jvGetItem cd "confidence" with
            | .error _ => (.error orchestratorStoreError, s1)
            | .ok cv =>
              let ctx0 := [("intent", iv), ("format", fv), ("confidence", cv),
                           ("classification_memory_id",
                            match cr.memoryId with
                            | some m => JsonVal.str m
                            | none => JsonVal.null)]
              let ctx := match metadata with
                         | some m => dictUpdate ctx0 m
                         | none => ctx0
              let ctxIntent := (dictGet ctx "intent").getD (.str "general")
              let h := if rt = JsonVal.str "json_agent" then
                         handlerProcess jsonCfg content hmo ctxIntent s1
                       else
                         handlerProcess emailCfg content hmo ctxIntent s1
              let hr := h.1
              let s2 := h.2
              if hr.success then
                (.ok { success := true
                       message := "Document successfully processed by " ++ jvPlainStr rt
                       data := some (.obj (.ofList [
                         ("classification", cd),
                         ("processing_result", hr.result.getD .null),
                         ("routing_target", rt)]))
                       memoryId := hr.memoryId }, s2)
              else
                (.ok { success := false
                       message := "Agent processing failed: " ++ hr.error.getD "Unknown error"
                       memoryId := hr.memoryId }, s2)
      else
        (.ok { success := false
               message := "No agent available for routing target: " ++ jvPlainStr rt
               memoryId := cr.memoryId }, s1)

/-- An empty store with fresh counters, used by concrete scenarios. -/
def st0 : MemoryState := { records := [], indices := [], nextId := 0, clock := 0 }

/-- Enum round trip: validating a serialized `DocumentFormat` value gives
the member back. -/
theorem docFormat_ofValue_value (f : DocumentFormat) :
    DocumentFormat.ofValue f.value = some f := by
  cases f <;> rfl

/-- Enum round trip: validating a serialized `DocumentIntent` value gives
the member back. -/
theorem docIntent_ofValue_value (i : DocumentIntent) :
    DocumentIntent.ofValue i.value = some i := by
  cases i <;> rfl

/-- Every effect after the primary write is an index update on the fresh id
or the TTL command. -/
theorem mem_storeTail {eid : String} {a : StoreArgs} {e : StoreEffect}
    (he : e ∈ storeTail eid a) :
    (∃ ix, e = StoreEffect.sadd ix eid) ∨ e = StoreEffect.expire eid (30 * 24 * 3600) := by
  simp only [storeTail, List.mem_cons, List.mem_append, List.not_mem_nil, or_false] at he
  rcases he with rfl | rfl | (h | h) | rfl
  · exact Or.inl ⟨_, rfl⟩
  · exact Or.inl ⟨_, rfl⟩
  · cases ht : a.threadId with
    | none => rw [ht] at h; simp at h
    | some t =>
      rw [ht] at h
      by_cases h0 : t == "" <;> simp [h0] at h
      exact Or.inl ⟨_, h⟩
  · cases hc : a.conversationId with
    | none => rw [hc] at h; simp at h
    | some c =>
      rw [hc] at h
      by_cases h0 : c == "" <;> simp [h0] at h
      exact Or.inl ⟨_, h⟩
  · exact Or.inr rfl

/-- Folding effects that contain no primary write leaves the record table
unchanged. -/
theorem records_foldl_no_hset (effs : List StoreEffect) (s : MemoryState)
    (h : ∀ e ∈ effs, ∀ k r, e ≠ StoreEffect.hset k r) :
    (effs.foldl applyEffect s).records = s.records := by
  induction effs generalizing s with
  | nil => rfl
  | cons e rest ih =>
    cases e with
    | hset k r => exact absurd rfl (h _ (List.mem_cons_self _ _) k r)
    | sadd ix m =>
      rw [List.foldl_cons, ih _ (fun e he => h e (List.mem_cons_of_mem _ he))]
      rfl
    | expire k n =>
      rw [List.foldl_cons, ih _ (fun e he => h e (List.mem_cons_of_mem _ he))]
      rfl

/-- The id returned by `store_entry` is the freshly generated uuid. -/
theorem storeEntry_fst (s : MemoryState) (a : StoreArgs) :
    (storeEntry s a).1 = uuidGen s.nextId := rfl

/-- After `store_entry` the record table is the serialized new record on
top of the previous table. -/
theorem storeEntry_records (s : MemoryState) (a : StoreArgs) :
    (storeEntry s a).2.records
      = (uuidGen s.nextId, serializeRecord (uuidGen s.nextId) s.clock a) :: s.records := by
  show ((storeEffects s a).foldl applyEffect s).records = _
  rw [storeEffects]
  rw [List.foldl_cons]
  rw [records_foldl_no_hset]
  · rfl
  · intro e he k r hek
    rcases mem_storeTail he with ⟨ix, hix⟩ | hexp
    · rw [hix] at hek; cases hek
    · rw [hexp] at hek; cases hek

/-- C4 (amended): `store_entry` followed by `get_entry` on the returned id
(before expiry) reproduces every field, except that an absent `thread_id`
or `conversation_id` round-trips as absent, and a present-but-empty-string
`thread_id`/`conversation_id` also decodes to absent, because it coincides
with the storage sentinel for absence. -/
theorem c4_store_get_round_trip (s : MemoryState) (a : StoreArgs) :
    getEntry (storeEntry s a).2 (storeEntry s a).1
      = some { id := (storeEntry s a).1
               source := a.source
               documentType := a.documentType
               intent := a.intent
               timestamp := s.clock
               extractedValues := a.extractedValues
               threadId := if a.threadId = some "" then none else a.threadId
               conversationId := if a.conversationId = some "" then none else a.conversationId } := by
  unfold getEntry
  rw [storeEntry_records, storeEntry_fst]
  simp only [List.lookup, beq_self_eq_true, serializeRecord,
             docFormat_ofValue_value, docIntent_ofValue_value]
  cases a.threadId with
  | none => cases a.conversationId with
    | none => simp
    | some c => by_cases hc : c = "" <;> simp [hc]
  | some t => cases a.conversationId with
    | none => by_cases ht : t = "" <;> simp [ht]
    | some c =>
      by_cases ht : t = "" <;> by_cases hc : c = "" <;> simp [ht, hc]

/-- Arguments exhibiting the present-but-empty `thread_id` edge case. -/
def c4args : StoreArgs :=
  { source := "s", documentType := .pdf, intent := .rfq,
    extractedValues := .null, threadId := some "", conversationId := none }

/-- C4 counterexample: storing an entry whose `thread_id` is the literal
empty string and reading it back yields an absent `thread_id`, so the
claimed round trip of every field fails at this input. -/
theorem c4_empty_thread_not_reproduced :
    (getEntry (storeEntry st0 c4args).2 (storeEntry st0 c4args).1).map MemoryEntry.threadId
       = some none ∧
    c4args.threadId = some "" ∧ some (none : Option String) ≠ some (some "") := by
  decide

/-- A lookup stays successful when a new record is prepended. -/
theorem lookup_isSome_cons {k : String} {r : StoredRecord}
    {l : List (String × StoredRecord)} {m : String}
    (h : (l.lookup m).isSome = true) : (((k, r) :: l).lookup m).isSome = true := by
  by_cases hm : m == k <;> simp [List.lookup, hm, h]

/-- Writing a primary record preserves the no-dangling-index invariant. -/
theorem noDangling_hset {s : MemoryState} {k : String} {r : StoredRecord}
    (h : noDangling s = true) :
    noDangling (applyEffect s (.hset k r)) = true := by
  simp only [noDangling, List.all_eq_true, applyEffect] at h ⊢
  intro p hp m hm
  exact lookup_isSome_cons (h p hp m hm)

/-- Every member of a set after `SADD` is the added member or was already
in some set. -/
theorem saddTo_members {ixs : List (IndexKey × List String)} {k : IndexKey}
    {m : String} {p : IndexKey × List String} (hp : p ∈ saddTo ixs k m) {x : String}
    (hx : x ∈ p.2) : x = m ∨ ∃ q ∈ ixs, x ∈ q.2 := by
  induction ixs with
  | nil =>
    simp only [saddTo, List.mem_singleton] at hp
    subst hp
    rcases List.mem_singleton.mp hx with rfl
    exact Or.inl rfl
  | cons q rest ih =>
    simp only [saddTo] at hp
    by_cases hqk : q.1 = k
    · rw [if_pos hqk] at hp
      rcases List.mem_cons.mp hp with rfl | hp2
      · by_cases hcm : q.2.contains m
        · simp only [hcm, if_true] at hx
          exact Or.inr ⟨q, List.mem_cons_self _ _, hx⟩
        · simp only [hcm, if_false] at hx
          rcases List.mem_append.mp hx with hx1 | hx1
          · exact Or.inr ⟨q, List.mem_cons_self _ _, hx1⟩
          · exact Or.inl (List.mem_singleton.mp hx1)
      · exact Or.inr ⟨p, List.mem_cons_of_mem _ hp2, hx⟩
    · rw [if_neg hqk] at hp
      rcases List.mem_cons.mp hp with rfl | hp2
      · exact Or.inr ⟨q, List.mem_cons_self _ _, hx⟩
      · rcases ih hp2 with h1 | ⟨q2, hq2, hxq2⟩
        · exact Or.inl h1
        · exact Or.inr ⟨q2, List.mem_cons_of_mem _ hq2, hxq2⟩

/-- An index update preserves the no-dangling-index invariant provided the
added member already has a primary record. -/
theorem noDangling_sadd {s : MemoryState} {ix : IndexKey} {m : String}
    (h : noDangling s = true) (hm : (s.records.lookup m).isSome = true) :
    noDangling (applyEffect s (.sadd ix m)) = true := by
  simp only [noDangling, List.all_eq_true, applyEffect] at h ⊢
  intro p hp x hx
  rcases saddTo_members hp hx with rfl | ⟨q, hq, hxq⟩
  · exact hm
  · exact h q hq x hxq

/-- Folding index updates on an id with a primary record, plus TTL
commands, preserves the invariant. -/
theorem noDangling_foldl_tail (effs : List StoreEffect) (s : MemoryState) (eid : String)
    (h : noDangling s = true) (hl : (s.records.lookup eid).isSome = true)
    (hsh : ∀ e ∈ effs, (∃ ix, e = StoreEffect.sadd ix eid) ∨ ∃ k n, e = StoreEffect.expire k n) :
    noDangling (effs.foldl applyEffect s) = true := by
  induction effs generalizing s with
  | nil => exact h
  | cons e rest ih =>
    rcases hsh e (List.mem_cons_self _ _) with ⟨ix, rfl⟩ | ⟨k, n, rfl⟩
    · rw [List.foldl_cons]
      exact ih (applyEffect s _) (noDangling_sadd h hl) hl
        (fun e he => hsh e (List.mem_cons_of_mem _ he))
    · rw [List.foldl_cons]
      exact ih s h hl (fun e he => hsh e (List.mem_cons_of_mem _ he))

/-- C5: `store_entry` issues the primary-record write first, and after any
prefix of its effect sequence no index set contains an id without a backing
primary record (an entry may exist without appearing in an index, never the
reverse). -/
theorem c5_primary_write_first (s : MemoryState) (a : StoreArgs) (n : Nat)
    (h : noDangling s = true) :
    (∃ k r rest, storeEffects s a = StoreEffect.hset k r :: rest) ∧
    noDangling (((storeEffects s a).take n).foldl applyEffect s) = true := by
  constructor
  · exact ⟨_, _, _, rfl⟩
  · cases n with
    | zero => simpa using h
    | succ n =>
      rw [storeEffects]
      simp only [List.take_succ_cons, List.foldl_cons]
      apply noDangling_foldl_tail _ _ (uuidGen s.nextId)
      · exact noDangling_hset h
      · simp [applyEffect, List.lookup]
      · intro e he
        rcases mem_storeTail (List.mem_of_mem_take he) with ⟨ix, rfl⟩ | rfl
        · exact Or.inl ⟨ix, rfl⟩
        · exact Or.inr ⟨_, _, rfl⟩

/-- Concrete store arguments used by witnesses. -/
def cargs : StoreArgs :=
  { source := "classifier_agent", documentType := .email, intent := .general,
    extractedValues := .null, threadId := some "t1", conversationId := none }

/-- Witness for C5 at a concrete store and prefix length. -/
theorem c5_primary_write_first_witness :
    (∃ k r rest, storeEffects st0 cargs = StoreEffect.hset k r :: rest) ∧
    noDangling (((storeEffects st0 cargs).take 2).foldl applyEffect st0) = true :=
  c5_primary_write_first st0 cargs 2 (by decide)

/-- A record predicate holding for the new record and all old ones holds
for the whole table after `store_entry`. -/
theorem all_records_after_store (s : MemoryState) (a : StoreArgs)
    (p : String × StoredRecord → Bool)
    (hnew : p (uuidGen s.nextId, serializeRecord (uuidGen s.nextId) s.clock a) = true)
    (hold : ∀ kr ∈ s.records, p kr = true) :
    ((storeEntry s a).2.records.all p) = true := by
  rw [storeEntry_records]
  rw [List.all_cons, hnew, Bool.true_and, List.all_eq_true]
  exact hold

/-- Every record a handler run adds to the table carries the handler's own
fixed document type, whatever the classifier said. -/
theorem handler_store_own_doc_type (cfg : HandlerCfg) (content : Chars)
    (mo : Except PyExc Chars) (ctxIntent : JsonVal) (s : MemoryState) :
    ((handlerProcess cfg content mo ctxIntent s).2.records.all
      (fun kr => decide (kr ∈ s.records) || (kr.2.document_type == cfg.docType.value))) = true := by
  have hold : ∀ kr ∈ s.records,
      (fun kr : String × StoredRecord =>
        decide (kr ∈ s.records) || (kr.2.document_type == cfg.docType.value)) kr = true := by
    intro kr hkr
    simp [hkr]
  unfold handlerProcess handlerBody
  cases mo with
  | error e =>
    dsimp only
    refine all_records_after_store s _ _ ?_ hold
    simp [serializeRecord]
  | ok resp =>
    dsimp only
    cases hlo : pyLowerJv ctxIntent with
    | error e =>
      dsimp only
      refine all_records_after_store s _ _ ?_ hold
      simp [serializeRecord]
    | ok low =>
      dsimp only
      cases hiv : DocumentIntent.ofValue low with
      | none =>
        dsimp only
        refine all_records_after_store s _ _ ?_ hold
        simp [serializeRecord]
      | some it =>
        dsimp only
        refine all_records_after_store s _ _ ?_ hold
        simp [serializeRecord]

/-- C9: every entry written by the email handler is recorded under document
type `email`, and every entry written by the JSON handler under `json`,
regardless of the classifier's assigned format (which never reaches the
handlers' `store_entry` calls). -/
theorem c9_handler_entry_doc_types (content : Chars) (mo : Except PyExc Chars)
    (ctxIntent : JsonVal) (s : MemoryState) :
    ((handlerProcess emailCfg content mo ctxIntent s).2.records.all
      (fun kr => decide (kr ∈ s.records) || (kr.2.document_type == "email"))) = true ∧
    ((handlerProcess jsonCfg content mo ctxIntent s).2.records.all
      (fun kr => decide (kr ∈ s.records) || (kr.2.document_type == "json"))) = true :=
  ⟨handler_store_own_doc_type emailCfg content mo ctxIntent s,
   handler_store_own_doc_type jsonCfg content mo ctxIntent s⟩

/-- A model response that is not JSON, triggering the classifier fallback. -/
def c1resp : Chars := "not json at all".toList

/-- C1: on a parse failure the classifier builds its fallback dict, but the
fallback's upper-case "EMAIL"/"GENERAL" literals fail the lower-case enum
lookup `DocumentFormat(...)`, so the fallback is never stored and no success
result is returned: the run ends in the outer exception path with
`success = false`, no `classification` key, an error entry, and
`routing_target = "email_agent"`. -/
theorem c1_fallback_path_raises :
    DocumentFormat.ofValue "EMAIL" = none ∧
    classifierData c1resp = classifierFallback "Expecting value" ∧
    ((classifierProcess ("doc".toList) (.ok c1resp) st0).1).success = false ∧
    ((classifierProcess ("doc".toList) (.ok c1resp) st0).1).classification = none ∧
    ((classifierProcess ("doc".toList) (.ok c1resp) st0).1).error
      = some "Classification failed: 'EMAIL' is not a valid DocumentFormat" ∧
    ((classifierProcess ("doc".toList) (.ok c1resp) st0).1).routingTarget
      = some (.str "email_agent") ∧
    ((classifierProcess ("doc".toList) (.ok c1resp) st0).2.records.map
      (fun kr => (kr.2.source, kr.2.intent))) = [("classifier_agent", "general")] ∧
    ((classifierProcess ("doc".toList) (.ok c1resp) st0).2.records.all
      (fun kr => jvHasKey kr.2.extracted_values "error")) = true := by
  decide

deriving instance DecidableEq for Except

/-- A syntactically valid classification that lacks the `confidence` key. -/
def c2resp : Chars :=
  "\x7b\"format\": \"email\", \"intent\": \"general\", \"reasoning\": \"r\", \"routing_target\": \"email_agent\"\x7d".toList

/-- C2: when the orchestrator's `try` body raises (here: `KeyError` on the
missing `confidence` key while building the handler context), the `except`
block's own `store_entry` call is missing the required `intent` argument and
raises `TypeError`, which escapes `process_document`; no orchestrator error
entry is written (the state stays exactly the post-classifier state). -/
theorem c2_exception_escapes_orchestrator :
    (processDocument ("hello".toList) none (.ok c2resp) (.ok ("\x7b\x7d".toList)) st0).1
      = Except.error orchestratorStoreError ∧
    (processDocument ("hello".toList) none (.ok c2resp) (.ok ("\x7b\x7d".toList)) st0).2
      = (classifierProcess ("hello".toList) (.ok c2resp) st0).2 ∧
    ((classifierProcess ("hello".toList) (.ok c2resp) st0).1).error = none := by
  set_option maxRecDepth 10000 in decide

/-- A valid classification whose routing target is an unknown tag. -/
def c3resp : Chars :=
  "\x7b\"format\": \"email\", \"intent\": \"general\", \"confidence\": 1, \"reasoning\": \"r\", \"routing_target\": \"ftp_agent\"\x7d".toList

/-- C3 counterexample: on a successful parse the classifier passes the
model-supplied routing target through unchecked, so the result can carry a
tag that is neither `json_agent` nor `email_agent`. -/
theorem c3_unknown_target_counterexample :
    ((classifierProcess ("c".toList) (.ok c3resp) st0).1).success = true ∧
    ((classifierProcess ("c".toList) (.ok c3resp) st0).1).routingTarget
      = some (.str "ftp_agent") ∧
    ((classifierProcess ("c".toList) (.ok c3resp) st0).1).routingTarget
      ≠ some (.str "json_agent") ∧
    ((classifierProcess ("c".toList) (.ok c3resp) st0).1).routingTarget
      ≠ some (.str "email_agent") := by
  set_option maxRecDepth 10000 in decide

/-- A JSON payload that contains a code-fence marker inside a string
literal. -/
def c6payload : Chars := "\x7b\"a\": \"```\"\x7d".toList

/-- Wrap a payload in a ```json fenced block with a closing fence. -/
def wrapFence (p : Chars) : Chars := fenceJson ++ '\n' :: (p ++ '\n' :: fence3)

/-- C6 counterexample: for a payload containing ``` inside a JSON string,
the fenced extraction stops at the payload's inner fence marker, so the
fenced form fails to parse while the unfenced payload parses. -/
theorem c6_inner_fence_counterexample :
    (jsonParse (normalizeResponse (wrapFence c6payload))).isOk = false ∧
    (jsonParse (normalizeResponse c6payload)).isOk = true ∧
    jsonParse (normalizeResponse (wrapFence c6payload))
      ≠ jsonParse (normalizeResponse c6payload) := by
  set_option maxRecDepth 10000 in decide

/-- C3 (amended): the classifier always resolves to a routing target: every
failure result routes to `email_agent`; a success result carries the
model-supplied `routing_target` value verbatim, which the classifier does
not constrain to the two known handler tags (the orchestrator rejects
unknown targets separately). -/
theorem c3_routing_target_amended (content : Chars) (mo : Except PyExc Chars)
    (s : MemoryState) :
    (((classifierProcess content mo s).1).routingTarget).isSome = true ∧
    (((classifierProcess content mo s).1).success = false →
      ((classifierProcess content mo s).1).routingTarget = some (.str "email_agent")) ∧
    (∀ resp, mo = .ok resp → ((classifierProcess content mo s).1).success = true →
      ((classifierProcess content mo s).1).routingTarget
        = (jvGetItem (classifierData resp) "routing_target").toOption) := by
  unfold classifierProcess classifierBody
  cases mo with
  | error e =>
    dsimp only
    exact ⟨rfl, fun _ => rfl, fun resp h => nomatch h⟩
  | ok resp =>
    dsimp only
    cases hf : jvGetItem (classifierData resp) "format" with
    | error e =>
      dsimp only
      exact ⟨rfl, fun _ => rfl, fun r hr hs => nomatch hs⟩
    | ok fv =>
      dsimp only
      cases hdf : documentFormatOfJv fv with
      | error e =>
        dsimp only
        exact ⟨rfl, fun _ => rfl, fun r hr hs => nomatch hs⟩
      | ok fmt =>
        dsimp only
        cases hi : jvGetItem (classifierData resp) "intent" with
        | error e =>
          dsimp only
          exact ⟨rfl, fun _ => rfl, fun r hr hs => nomatch hs⟩
        | ok iv =>
          dsimp only
          cases hdi : documentIntentOfJv iv with
          | error e =>
            dsimp only
            exact ⟨rfl, fun _ => rfl, fun r hr hs => nomatch hs⟩
          | ok it =>
            dsimp only
            cases hrt : jvGetItem (classifierData resp) "routing_target" with
            | error e =>
              dsimp only
              exact ⟨rfl, fun _ => rfl, fun r hr hs => nomatch hs⟩
            | ok rt =>
              dsimp only
              refine ⟨rfl, fun h => Bool.noConfusion h, fun r hr hs => ?_⟩
              cases hr
              rw [hrt]
              rfl

/-- Witness for C3 (amended) at a failing model response. -/
theorem c3_routing_target_amended_witness :
    ((classifierProcess ("c".toList) (.ok c1resp) st0).1).routingTarget
      = some (.str "email_agent") :=
  (c3_routing_target_amended ("c".toList) (.ok c1resp) st0).2.1 (by decide)

/-- The ascending comparison is transitive. -/
theorem tsAsc_trans : ∀ a b c : MemoryEntry, tsAsc a b → tsAsc b c → tsAsc a c := by
  intro a b c hab hbc
  simp only [tsAsc, decide_eq_true_eq] at hab hbc ⊢
  omega

/-- The ascending comparison is total. -/
theorem tsAsc_total : ∀ a b : MemoryEntry, tsAsc a b || tsAsc b a := by
  intro a b
  simp only [tsAsc, Bool.or_eq_true, decide_eq_true_eq]
  omega

/-- The descending comparison is transitive. -/
theorem tsDesc_trans : ∀ a b c : MemoryEntry, tsDesc a b → tsDesc b c → tsDesc a c := by
  intro a b c hab hbc
  simp only [tsDesc, decide_eq_true_eq] at hab hbc ⊢
  omega

/-- The descending comparison is total. -/
theorem tsDesc_total : ∀ a b : MemoryEntry, tsDesc a b || tsDesc b a := by
  intro a b
  simp only [tsDesc, Bool.or_eq_true, decide_eq_true_eq]
  omega

/-- C8: `get_entries_by_thread` returns the thread-index entries ascending
by timestamp, `get_entries_by_type` returns the type-index entries
descending by timestamp, and `get_recent_context` returns all entries
descending by timestamp truncated to `limit`; when fewer than `limit`
entries exist it returns exactly all of them, newest first. -/
theorem c8_memory_query_ordering (s : MemoryState) (tid : String)
    (dt : DocumentFormat) (limit : Nat) :
    (getEntriesByThread s tid).Pairwise (fun a b => a.timestamp ≤ b.timestamp) ∧
    (getEntriesByThread s tid).Perm
      ((indexMembers s (.byThread tid)).filterMap (getEntry s)) ∧
    (getEntriesByType s dt).Pairwise (fun a b => b.timestamp ≤ a.timestamp) ∧
    (getEntriesByType s dt).Perm
      ((indexMembers s (.byType dt.value)).filterMap (getEntry s)) ∧
    (getRecentContext s limit).Pairwise (fun a b => b.timestamp ≤ a.timestamp) ∧
    (getRecentContext s limit).length
      = min limit (((s.records.map (·.1)).filterMap (getEntry s)).length) ∧
    ((((s.records.map (·.1)).filterMap (getEntry s)).length ≤ limit) →
      (getRecentContext s limit).Perm ((s.records.map (·.1)).filterMap (getEntry s))) := by
  refine ⟨?_, ?_, ?_, ?_, ?_, ?_, ?_⟩
  · exact (List.sorted_mergeSort tsAsc_trans tsAsc_total _).imp
      (fun h => by simpa [tsAsc] using h)
  · exact List.mergeSort_perm _ tsAsc
  · exact (List.sorted_mergeSort tsDesc_trans tsDesc_total _).imp
      (fun h => by simpa [tsDesc] using h)
  · exact List.mergeSort_perm _ tsDesc
  · exact ((List.sorted_mergeSort tsDesc_trans tsDesc_total _).sublist
      (List.take_sublist _ _)).imp (fun h => by simpa [tsDesc] using h)
  · rw [getRecentContext, List.length_take,
        (List.mergeSort_perm ((s.records.map (·.1)).filterMap (getEntry s)) tsDesc).length_eq]
  · intro hle
    rw [getRecentContext, List.take_of_length_le]
    · exact List.mergeSort_perm _ tsDesc
    · rw [(List.mergeSort_perm ((s.records.map (·.1)).filterMap (getEntry s)) tsDesc).length_eq]
      exact hle

/-- First stored entry of the concrete history scenario. -/
def dargs1 : StoreArgs :=
  { source := "classifier_agent", documentType := .pdf, intent := .rfq,
    extractedValues := .null, threadId := some "t" }

/-- Second stored entry of the concrete history scenario. -/
def dargs2 : StoreArgs :=
  { source := "email_agent", documentType := .email, intent := .general,
    extractedValues := .null, threadId := some "t" }

/-- Third stored entry of the concrete history scenario. -/
def dargs3 : StoreArgs :=
  { source := "json_agent", documentType := .json, intent := .invoice,
    extractedValues := .null }

/-- A store holding exactly three entries with increasing timestamps. -/
def s3demo : MemoryState :=
  (storeEntry (storeEntry (storeEntry st0 dargs1).2 dargs2).2 dargs3).2

/-- Witness for C8: requesting recent history with limit 10 over the
three-entry store returns exactly those three entries, newest first. -/
theorem c8_memory_query_ordering_witness :
    (getRecentContext s3demo 10).Perm ((s3demo.records.map (·.1)).filterMap (getEntry s3demo)) ∧
    (getRecentContext s3demo 10).Pairwise (fun a b => b.timestamp ≤ a.timestamp) :=
  ⟨(c8_memory_query_ordering s3demo "t" .email 10).2.2.2.2.2.2 (by decide),
   (c8_memory_query_ordering s3demo "t" .email 10).2.2.2.2.1⟩

/-- A found occurrence means the pattern is a prefix of the suffix at the
found index. -/
theorem findSub_some_startsWith {pat l : Chars} {i : Nat} (h : findSub pat l = some i) :
    pat <+: l.drop i := by
  induction l generalizing i with
  | nil =>
    unfold findSub at h
    by_cases hp : pat.isEmpty
    · rw [if_pos hp] at h
      cases h
      simp [List.isEmpty_iff.mp hp]
    · rw [if_neg hp] at h
      cases h
  | cons c rest ih =>
    unfold findSub at h
    by_cases hp : pat.isPrefixOf (c :: rest)
    · rw [if_pos hp] at h
      cases h
      simpa using List.isPrefixOf_iff_prefix.mp hp
    · rw [if_neg hp] at h
      cases hj : findSub pat rest with
      | none => rw [hj] at h; cases h
      | some j =>
        rw [hj] at h
        injection h with h
        subst h
        simpa using ih hj

/-- A pattern found by `findSub` occurs as an infix. -/
theorem infix_of_containsSub {pat l : Chars} (h : containsSub pat l = true) :
    pat <:+: l := by
  unfold containsSub at h
  cases hf : findSub pat l with
  | none => rw [hf] at h; cases h
  | some i =>
    exact (findSub_some_startsWith hf).isInfix.trans (List.drop_suffix i l).isInfix

/-- Substring containment is false when the pattern is not an infix. -/
theorem containsSub_eq_false {pat l : Chars} (h : ¬ pat <:+: l) :
    containsSub pat l = false := by
  cases hc : containsSub pat l with
  | false => rfl
  | true => exact absurd (infix_of_containsSub hc) h

/-- A prefix match makes `findSub` report index zero. -/
theorem findSub_of_isPrefixOf {pat l : Chars} (h : pat.isPrefixOf l = true) :
    findSub pat l = some 0 := by
  cases l with
  | nil =>
    have : pat = [] := by
      simpa using List.isPrefixOf_iff_prefix.mp h
    simp [findSub, this]
  | cons c rest => simp [findSub, h]

/-- The stripped string occurs inside the original. -/
theorem pyStrip_within (l : Chars) : pyStrip l <:+: l := by
  unfold pyStrip
  have h1 : (l.dropWhile pyIsSpace).reverse.dropWhile pyIsSpace <:+ (l.dropWhile pyIsSpace).reverse :=
    List.dropWhile_suffix _
  have h2 : ((l.dropWhile pyIsSpace).reverse.dropWhile pyIsSpace).reverse <+: l.dropWhile pyIsSpace := by
    have := List.reverse_prefix.mpr h1
    rwa [List.reverse_reverse] at this
  exact h2.isInfix.trans (List.dropWhile_suffix pyIsSpace).isInfix

/-- Dropping leading whitespace stops at the first non-whitespace
character, also across an append. -/
theorem dropWhile_append_stop {c : Char} (hc : pyIsSpace c = false) (l r : Chars) :
    (l ++ c :: r).dropWhile pyIsSpace = l.dropWhile pyIsSpace ++ c :: r := by
  rw [List.dropWhile_append]
  by_cases he : (l.dropWhile pyIsSpace).isEmpty
  · rw [if_pos he, List.isEmpty_iff.mp he, List.dropWhile_cons_of_neg (by simp [hc])]
    rfl
  · rw [if_neg he]

/-- Stripping absorbs one leading whitespace character. -/
theorem pyStrip_cons_ws {c : Char} (hc : pyIsSpace c = true) (l : Chars) :
    pyStrip (c :: l) = pyStrip l := by
  unfold pyStrip
  rw [List.dropWhile_cons_of_pos hc]

/-- Stripping absorbs one trailing whitespace character. -/
theorem pyStrip_concat_ws {c : Char} (hc : pyIsSpace c = true) (l : Chars) :
    pyStrip (l ++ [c]) = pyStrip l := by
  unfold pyStrip
  rw [List.dropWhile_append]
  by_cases he : (l.dropWhile pyIsSpace).isEmpty
  · rw [if_pos he, List.isEmpty_iff.mp he]
    simp [hc]
  · rw [if_neg he]
    rw [List.reverse_append]
    simp only [List.reverse_cons, List.reverse_nil, List.nil_append, List.singleton_append]
    rw [List.dropWhile_cons_of_pos hc]

/-- Stripping a string of the shape `pre ++ x :: mid ++ y :: post` with
non-whitespace `x`, `y` strips only inside `pre` and `post`. -/
theorem pyStrip_decomp {x y : Char} (hx : pyIsSpace x = false) (hy : pyIsSpace y = false)
    (pre mid post : Chars) :
    pyStrip (pre ++ x :: (mid ++ y :: post))
      = pre.dropWhile pyIsSpace
        ++ x :: (mid ++ y :: (post.reverse.dropWhile pyIsSpace).reverse) := by
  unfold pyStrip
  rw [dropWhile_append_stop hx]
  have h2 : (pre.dropWhile pyIsSpace ++ x :: (mid ++ y :: post)).reverse
      = post.reverse ++ y :: (mid.reverse ++ x :: (pre.dropWhile pyIsSpace).reverse) := by
    simp
  rw [h2, dropWhile_append_stop hy]
  simp

/-- When no nonempty suffix of `xs` extended by `ys` starts with `pat`, the
first occurrence of `pat` in `xs ++ ys` lies in `ys`. -/
theorem findSub_append (pat xs ys : Chars)
    (h : ∀ t, t <:+ xs → t ≠ [] → pat.isPrefixOf (t ++ ys) = false) :
    findSub pat (xs ++ ys) = (findSub pat ys).map (· + xs.length) := by
  induction xs with
  | nil =>
    simp only [List.nil_append, List.length_nil]
    cases findSub pat ys <;> simp
  | cons c rest ih =>
    rw [List.cons_append]
    rw [show findSub pat (c :: (rest ++ ys))
          = if pat.isPrefixOf (c :: (rest ++ ys)) then some 0
            else (findSub pat (rest ++ ys)).map (· + 1) from rfl]
    rw [if_neg ?_]
    · rw [ih (fun t ht hne => h t (ht.trans (List.suffix_cons c rest)) hne)]
      cases findSub pat ys with
      | none => simp
      | some v =>
        simp only [Option.map_some', List.length_cons, Option.some.injEq]
        omega
    · intro hc
      have := h (c :: rest) List.suffix_rfl (by simp)
      rw [List.cons_append] at this
      rw [hc] at this
      cases this

/-- A nonempty suffix of `l ++ [a]` is a suffix of `l` extended by `a`. -/
theorem suffix_append_singleton {t l : Chars} {a : Char}
    (ht : t <:+ l ++ [a]) (hne : t ≠ []) :
    ∃ u, u <:+ l ∧ t = u ++ [a] := by
  have h1 : t.reverse <+: (l ++ [a]).reverse := List.reverse_prefix.mpr ht
  rw [List.reverse_append] at h1
  simp only [List.reverse_cons, List.reverse_nil, List.nil_append, List.singleton_append] at h1
  cases htr : t.reverse with
  | nil =>
    exact absurd (by simpa using congrArg List.reverse htr) hne
  | cons b v =>
    rw [htr] at h1
    rcases List.cons_prefix_cons.mp h1 with ⟨rfl, hv⟩
    refine ⟨v.reverse, ?_, ?_⟩
    · have h3 := List.reverse_suffix.mpr hv
      rwa [List.reverse_reverse] at h3
    · have h4 := congrArg List.reverse htr
      simpa using h4

/-- The three-backtick marker is a prefix of the json fence tag. -/
theorem fence3_prefix_fenceJson : fence3 <+: fenceJson :=
  ⟨['j', 's', 'o', 'n'], rfl⟩

/-- Unfolding of the fence check on a three-character head. -/
theorem fence3_isPrefixOf_cons3 (a b c : Char) (r : Chars) :
    fence3.isPrefixOf (a :: b :: c :: r)
      = (btick == a && (btick == b && btick == c)) := by
  simp [fence3, List.isPrefixOf]

/-- On input without any fence marker the fence stage is the identity. -/
theorem fenceStage_id_of_no_fence {l : Chars} (h : ¬ fence3 <:+: l) :
    fenceStage l = l := by
  have h1 : containsSub fenceJson l = false := by
    apply containsSub_eq_false
    intro hinf
    exact h (fence3_prefix_fenceJson.isInfix.trans hinf)
  have h2 : fence3.isPrefixOf l = false := by
    cases hb : fence3.isPrefixOf l with
    | false => rfl
    | true =>
      exact absurd (List.isPrefixOf_iff_prefix.mp hb).isInfix h
  rw [fenceStage, h1, h2]
  simp

/-- The stripped input has no fence when the input has none. -/
theorem not_fence_pyStrip {l : Chars} (h : ¬ fence3 <:+: l) :
    ¬ fence3 <:+: pyStrip l :=
  fun hinf => h (hinf.trans (pyStrip_within l))

/-- The closing-fence search after the tag: with no fence inside the
payload, the first occurrence is the closing fence. -/
theorem findSub_fence_close (p : Chars) (h : ¬ fence3 <:+: p) :
    findSub fence3 ('\n' :: (p ++ ['\n']) ++ fence3) = some (p.length + 2) := by
  rw [findSub_append]
  · rw [findSub_of_isPrefixOf (List.isPrefixOf_iff_prefix.mpr List.prefix_rfl)]
    simp
  · intro t ht hne
    rcases List.suffix_cons_iff.mp ht with rfl | ht2
    · simp [fence3, List.isPrefixOf, btick]
    · rcases suffix_append_singleton ht2 hne with ⟨u, hu, rfl⟩
      cases u with
      | nil => simp [fence3, List.isPrefixOf, btick]
      | cons a u1 =>
        cases u1 with
        | nil => simp [fence3, List.isPrefixOf, btick]
        | cons b u2 =>
          cases u2 with
          | nil => simp [fence3, List.isPrefixOf, btick]
          | cons c u3 =>
            rw [show (a :: b :: c :: u3) ++ ['\n'] ++ fence3
                  = a :: b :: c :: (u3 ++ ['\n'] ++ fence3) by simp]
            rw [fence3_isPrefixOf_cons3]
            cases hq : (btick == a && (btick == b && btick == c)) with
            | false => rfl
            | true =>
              exfalso
              apply h
              simp only [Bool.and_eq_true, beq_iff_eq] at hq
              rcases hq with ⟨rfl, rfl, rfl⟩
              exact List.IsInfix.trans ⟨[], u3, rfl⟩ hu.isInfix

/-- A nonnegative Python slice bound clamps to the minimum with the length. -/
theorem pyBound_ofNat (len n : Nat) : pyBound len ((n : Nat) : Int) = min n len := by
  simp only [pyBound]
  rw [if_neg (by omega)]
  omega

/-- The fenced wrapper is already stripped (it starts and ends with a
backtick). -/
theorem pyStrip_wrapFence (p : Chars) : pyStrip (wrapFence p) = wrapFence p := by
  have hshape : wrapFence p
      = [] ++ btick :: ((btick :: btick :: 'j' :: 's' :: 'o' :: 'n' :: '\n'
          :: (p ++ ['\n', btick, btick])) ++ btick :: []) := by
    simp [wrapFence, fenceJson, fence3]
  rw [hshape, pyStrip_decomp (by decide) (by decide)]
  simp

/-- Inside the fence stage, extraction of the wrapped payload yields the
stripped payload. -/
theorem fenceStage_wrapFence (p : Chars) (h : ¬ fence3 <:+: p) :
    fenceStage (wrapFence p) = pyStrip p := by
  have hpre : fenceJson.isPrefixOf (wrapFence p) = true := by
    apply List.isPrefixOf_iff_prefix.mpr
    exact ⟨'\n' :: (p ++ '\n' :: fence3), rfl⟩
  have hfind : findSub fenceJson (wrapFence p) = some 0 := findSub_of_isPrefixOf hpre
  have hcont : containsSub fenceJson (wrapFence p) = true := by
    rw [containsSub, hfind]
    rfl
  have hdrop : (wrapFence p).drop 7 = '\n' :: (p ++ '\n' :: fence3) := by
    rw [wrapFence]
    exact List.drop_left' (by simp [fenceJson])
  have hclose : findSubFrom fence3 7 (wrapFence p) = some (p.length + 9) := by
    rw [findSubFrom, hdrop]
    rw [show '\n' :: (p ++ '\n' :: fence3) = '\n' :: (p ++ ['\n']) ++ fence3 by simp]
    rw [findSub_fence_close p h]
    simp
  have hlen : (wrapFence p).length = p.length + 12 := by
    simp [wrapFence, fenceJson, fence3]
  have hslice : pySlice (wrapFence p) ((7 : Nat) : Int) (((p.length + 9 : Nat) : Nat) : Int)
      = '\n' :: (p ++ ['\n']) := by
    rw [pySlice, pyBound_ofNat, pyBound_ofNat, hlen]
    rw [Nat.min_def, if_pos (by omega), Nat.min_def, if_pos (by omega)]
    rw [show wrapFence p = (fenceJson ++ '\n' :: (p ++ ['\n'])) ++ fence3 by simp [wrapFence]]
    rw [List.take_left' (by simp [fenceJson])]
    exact List.drop_left' (by simp [fenceJson])
  rw [fenceStage, hcont]
  simp only [if_true, hfind, Option.getD_some, hclose]
  have h79 : ((0 : Nat) + 7 : Nat) = 7 := rfl
  rw [show (0 : Nat) + 7 = 7 from rfl]
  rw [show ((p.length + 9 : Nat) : Int) = (((p.length + 9 : Nat) : Nat) : Int) from rfl]
  rw [hslice]
  rw [pyStrip_cons_ws (by decide), pyStrip_concat_ws (by decide)]

/-- C6 (amended): for every JSON payload that does not itself contain the
three-backtick fence marker, normalizing the payload wrapped in a
```json fenced block (with closing fence) extracts exactly the stripped
payload and yields the same normalized text — hence the same parse
result — as normalizing the unfenced payload. -/
theorem c6_fenced_extraction_amended (p : Chars) (h : ¬ fence3 <:+: p) :
    normalizeResponse (wrapFence p) = normalizeResponse p ∧
    jsonParse (normalizeResponse (wrapFence p)) = jsonParse (normalizeResponse p) := by
  have hmain : normalizeResponse (wrapFence p) = normalizeResponse p := by
    rw [normalizeResponse, normalizeResponse, pyStrip_wrapFence, fenceStage_wrapFence p h,
        fenceStage_id_of_no_fence (not_fence_pyStrip h)]
  exact ⟨hmain, by rw [hmain]⟩

/-- Witness for C6 (amended) at a concrete payload without inner fences. -/
theorem c6_fenced_extraction_amended_witness :
    normalizeResponse (wrapFence ("\x7b\"a\": 1\x7d".toList))
      = normalizeResponse ("\x7b\"a\": 1\x7d".toList) ∧
    jsonParse (normalizeResponse (wrapFence ("\x7b\"a\": 1\x7d".toList)))
      = jsonParse (normalizeResponse ("\x7b\"a\": 1\x7d".toList)) :=
  c6_fenced_extraction_amended ("\x7b\"a\": 1\x7d".toList) (by decide)

/-- Brace trimming on a string decomposed around its first left brace and
last right brace returns exactly the brace-bounded substring. -/
theorem braceTrim_decomp (pr mid ps : Chars) (hpr : lbrace ∉ pr) (hps : rbrace ∉ ps) :
    braceTrim (pr ++ lbrace :: (mid ++ rbrace :: ps)) = lbrace :: (mid ++ [rbrace]) := by
  have hfront :
      (if (pr ++ lbrace :: (mid ++ rbrace :: ps)).head? == some lbrace then
         pr ++ lbrace :: (mid ++ rbrace :: ps)
       else
         match (pr ++ lbrace :: (mid ++ rbrace :: ps)).findIdx? (· == lbrace) with
         | some i => (pr ++ lbrace :: (mid ++ rbrace :: ps)).drop i
         | none => pr ++ lbrace :: (mid ++ rbrace :: ps))
        = lbrace :: (mid ++ rbrace :: ps) := by
    cases pr with
    | nil => simp
    | cons c pr1 =>
      have hc : (c == lbrace) = false := by
        cases hq : c == lbrace with
        | false => rfl
        | true =>
          exact absurd (by rw [beq_iff_eq.mp hq]; exact List.mem_cons_self _ _) hpr
      rw [if_neg (by simp [hc])]
      rw [List.findIdx?_append]
      rw [List.findIdx?_eq_none_iff.mpr ?_]
      · rw [List.findIdx?_cons]
        simp only [beq_self_eq_true, if_true, cond_true]
        simp only [Option.or, Option.map_some']
        exact List.drop_left' (by simp)
      · intro x hx
        cases hq : x == lbrace with
        | false => rfl
        | true => exact absurd (by rw [beq_iff_eq.mp hq] at hx; exact hx) hpr
  rw [braceTrim]
  simp only at hfront
  rw [hfront]
  cases ps with
  | nil =>
    rw [if_pos]
    apply beq_iff_eq.mpr
    rw [show lbrace :: (mid ++ rbrace :: ([] : Chars)) = (lbrace :: mid) ++ [rbrace] by simp]
    exact List.getLast?_concat _
  | cons d ps1 =>
    have hsplit : lbrace :: (mid ++ rbrace :: (d :: ps1))
        = (lbrace :: (mid ++ [rbrace])) ++ d :: ps1 := by simp
    have hnb : ∀ x ∈ (d :: ps1).reverse, (x == rbrace) = false := by
      intro x hx
      cases hq : x == rbrace with
      | false => rfl
      | true =>
        have hmem : x ∈ d :: ps1 := List.mem_reverse.mp hx
        rw [beq_iff_eq.mp hq] at hmem
        exact absurd hmem hps
    have hlast : ((lbrace :: (mid ++ rbrace :: (d :: ps1))).getLast? == some rbrace) = false := by
      rw [hsplit, List.getLast?_append]
      cases hgl : (d :: ps1).getLast? with
      | none => simp at hgl
      | some x =>
        have hxmem : x ∈ d :: ps1 := List.mem_of_getLast?_eq_some hgl
        have hxne : (x == rbrace) = false := by
          cases hq : x == rbrace with
          | false => rfl
          | true =>
            rw [beq_iff_eq.mp hq] at hxmem
            exact absurd hxmem hps
        simp only [Option.or_some]
        exact hxne
    have hrfind : rfindChar rbrace (lbrace :: (mid ++ rbrace :: (d :: ps1)))
        = some (mid.length + 1) := by
      rw [rfindChar]
      rw [show (lbrace :: (mid ++ rbrace :: (d :: ps1))).reverse
            = (d :: ps1).reverse ++ rbrace :: (mid.reverse ++ [lbrace]) by simp]
      rw [List.findIdx?_append, List.findIdx?_eq_none_iff.mpr hnb]
      rw [List.findIdx?_cons]
      simp only [beq_self_eq_true, if_true, cond_true, Option.or, Option.map_some',
                 Option.none_or]
      congr 1
      simp
      omega
    rw [if_neg (by simp [hlast])]
    rw [hrfind, hsplit]
    show List.take (mid.length + 1 + 1) (lbrace :: (mid ++ [rbrace]) ++ d :: ps1)
      = lbrace :: (mid ++ [rbrace])
    rw [List.take_left' (by simp)]

/-- C7: for a model response that is a JSON object surrounded by non-fence
prose — text of shape `pre ++ lbrace :: mid ++ rbrace :: post` whose first
left brace opens at the end of `pre` and whose last right brace closes
before `post`, with no fence marker anywhere — the normalizer recovers
exactly the substring bounded by the first left brace and the last right
brace, and that substring is what is handed to the JSON parse. -/
theorem c7_prose_wrapped_recovery (pre mid post : Chars)
    (hpre : lbrace ∉ pre) (hpost : rbrace ∉ post)
    (hfence : ¬ fence3 <:+: (pre ++ lbrace :: (mid ++ rbrace :: post))) :
    normalizeResponse (pre ++ lbrace :: (mid ++ rbrace :: post))
      = lbrace :: (mid ++ [rbrace]) := by
  have hdec := pyStrip_decomp (x := lbrace) (y := rbrace) (by decide) (by decide) pre mid post
  have hnf : ¬ fence3 <:+:
      (pre.dropWhile pyIsSpace
        ++ lbrace :: (mid ++ rbrace :: (post.reverse.dropWhile pyIsSpace).reverse)) := by
    intro hinf
    apply hfence
    have hst := pyStrip_within (pre ++ lbrace :: (mid ++ rbrace :: post))
    rw [hdec] at hst
    exact hinf.trans hst
  rw [normalizeResponse, hdec, fenceStage_id_of_no_fence hnf]
  apply braceTrim_decomp
  · intro hx
    exact hpre ((List.dropWhile_suffix pyIsSpace).subset hx)
  · intro hx
    have h1 : rbrace ∈ post.reverse.dropWhile pyIsSpace := List.mem_reverse.mp hx
    have h2 : rbrace ∈ post.reverse := (List.dropWhile_suffix pyIsSpace).subset h1
    exact hpost (List.mem_reverse.mp h2)

/-- Witness for C7 at the spec's concrete prose-wrapped response. -/
theorem c7_prose_wrapped_recovery_witness :
    normalizeResponse (("Sure! ".toList)
        ++ lbrace :: (("\"a\": 1".toList) ++ rbrace :: (" Hope that helps".toList)))
      = lbrace :: ("\"a\": 1".toList ++ [rbrace]) :=
  c7_prose_wrapped_recovery ("Sure! ".toList) ("\"a\": 1".toList) (" Hope that helps".toList)
    (by decide) (by decide) (by decide)

/-- Setting a key makes it retrievable. -/
theorem dictGet_dictSet_self (d : List (String × JsonVal)) (k : String) (v : JsonVal) :
    dictGet (dictSet d k v) k = some v := by
  unfold dictSet
  by_cases ha : d.any (fun p => p.1 == k)
  · rw [if_pos ha]
    induction d with
    | nil => cases ha
    | cons p rest ih =>
      rw [List.map_cons]
      by_cases hp : p.1 == k
      · rw [if_pos hp]
        simp [dictGet, List.find?]
      · rw [if_neg hp]
        have ha2 : rest.any (fun p => p.1 == k) := by
          rcases List.any_eq_true.mp ha with ⟨q, hq, hqk⟩
          rcases List.mem_cons.mp hq with rfl | hq2
          · exact absurd hqk (by simpa using hp)
          · exact List.any_eq_true.mpr ⟨q, hq2, hqk⟩
        simp only [Bool.not_eq_true] at hp
        show Option.map (fun x => x.2)
          (List.find? (fun p => p.1 == k)
            (p :: List.map (fun p => if (p.1 == k) = true then (k, v) else p) rest)) = some v
        rw [List.find?_cons_of_neg _ (by simp [hp])]
        exact ih ha2
  · rw [if_neg ha]
    rw [dictGet, List.find?_append]
    rw [List.find?_eq_none.mpr (fun p hp hc => ha (List.any_eq_true.mpr ⟨p, hp, hc⟩))]
    simp [List.find?]

/-- Setting a different key does not change a lookup. -/
theorem dictGet_dictSet_ne (d : List (String × JsonVal)) (k k1 : String) (v1 : JsonVal)
    (h : (k1 == k) = false) : dictGet (dictSet d k1 v1) k = dictGet d k := by
  unfold dictSet
  by_cases ha : d.any (fun p => p.1 == k1)
  · rw [if_pos ha]
    clear ha
    induction d with
    | nil => rfl
    | cons p rest ih =>
      rw [List.map_cons]
      by_cases hp : p.1 == k1
      · rw [if_pos hp]
        have hpk : (p.1 == k) = false := by
          rw [beq_iff_eq.mp hp]
          exact h
        unfold dictGet
        rw [List.find?_cons_of_neg _ (by simp [Bool.not_eq_true, h]),
            List.find?_cons_of_neg _ (by simp [Bool.not_eq_true, hpk])]
        exact ih
      · rw [if_neg hp]
        by_cases hq : p.1 == k
        · unfold dictGet
          rw [List.find?_cons_of_pos _ (by simpa using hq),
              List.find?_cons_of_pos _ (by simpa using hq)]
        · unfold dictGet
          rw [List.find?_cons_of_neg _ (by simpa using hq),
              List.find?_cons_of_neg _ (by simpa using hq)]
          exact ih
  · rw [if_neg ha]
    unfold dictGet
    rw [List.find?_append]
    rw [show List.find? (fun p => p.1 == k) [(k1, v1)] = none by simp [List.find?, h]]
    rw [Option.or_none]

/-- Updating with a dict that does not bind `k` leaves `k`'s lookup
unchanged. -/
theorem dictGet_dictUpdate_not_mem (d m : List (String × JsonVal)) (k : String)
    (h : ∀ p ∈ m, (p.1 == k) = false) :
    dictGet (dictUpdate d m) k = dictGet d k := by
  induction m generalizing d with
  | nil => rfl
  | cons p rest ih =>
    rw [dictUpdate, List.foldl_cons]
    rw [show List.foldl (fun acc q => dictSet acc q.1 q.2) (dictSet d p.1 p.2) rest
          = dictUpdate (dictSet d p.1 p.2) rest from rfl]
    rw [ih _ (fun q hq => h q (List.mem_cons_of_mem _ hq))]
    exact dictGet_dictSet_ne _ _ _ _ (h p (List.mem_cons_self _ _))

/-- Python `context.update(metadata)`: a key bound in the (duplicate-free)
metadata dict wins in the updated context. -/
theorem dictGet_dictUpdate_of_mem (d m : List (String × JsonVal)) (k : String) (v : JsonVal)
    (hnd : (m.map Prod.fst).Nodup) (h : dictGet m k = some v) :
    dictGet (dictUpdate d m) k = some v := by
  induction m generalizing d with
  | nil => cases h
  | cons p rest ih =>
    rw [dictUpdate, List.foldl_cons]
    rw [show List.foldl (fun acc q => dictSet acc q.1 q.2) (dictSet d p.1 p.2) rest
          = dictUpdate (dictSet d p.1 p.2) rest from rfl]
    by_cases hp : p.1 == k
    · have hv : p.2 = v := by
        unfold dictGet at h
        rw [List.find?_cons_of_pos _ (by simpa using hp)] at h
        simpa using h
      have hk : p.1 = k := beq_iff_eq.mp hp
      rw [dictGet_dictUpdate_not_mem _ _ _ ?_]
      · rw [← hk, ← hv]
        exact dictGet_dictSet_self d p.1 p.2
      · intro q hq
        cases hqk : q.1 == k with
        | false => rfl
        | true =>
          exfalso
          rw [List.map_cons, List.nodup_cons] at hnd
          apply hnd.1
          rw [hk, ← beq_iff_eq.mp hqk]
          exact List.mem_map.mpr ⟨q, hq, rfl⟩
    · have h2 : dictGet rest k = some v := by
        unfold dictGet at h
        rw [List.find?_cons_of_neg _ (by simpa using hp)] at h
        exact h
      rw [List.map_cons, List.nodup_cons] at hnd
      exact ih _ hnd.2 h2

/-- A handler handed a context intent that cannot be lower-cased into a
known intent takes its hard-failure path: it stores one error entry with
intent `general` under its own source tag and returns a failure result. -/
theorem handler_bad_intent (cfg : HandlerCfg) (content : Chars)
    (hmo : Except PyExc Chars) (v : JsonVal) (s : MemoryState)
    (hbad : ∀ st, pyLowerJv v = .ok st → DocumentIntent.ofValue st = none) :
    (handlerProcess cfg content hmo v s).1.success = false ∧
    (handlerProcess cfg content hmo v s).1.error.isSome = true ∧
    ∃ eid erec, (handlerProcess cfg content hmo v s).2.records = (eid, erec) :: s.records ∧
      erec.intent = "general" ∧ erec.source = cfg.sourceName ∧
      jvHasKey erec.extracted_values "error" = true := by
  unfold handlerProcess handlerBody
  cases hmo with
  | error e =>
    dsimp only
    refine ⟨rfl, rfl, _, _, storeEntry_records s _, rfl, rfl, rfl⟩
  | ok resp =>
    dsimp only
    cases hlo : pyLowerJv v with
    | error e =>
      dsimp only
      refine ⟨rfl, rfl, _, _, storeEntry_records s _, rfl, rfl, rfl⟩
    | ok low =>
      dsimp only
      rw [hbad low hlo]
      dsimp only
      refine ⟨rfl, rfl, _, _, storeEntry_records s _, rfl, rfl, rfl⟩

/-- C10: when caller metadata binds an `intent` key, that value replaces
the classifier's intent in the handler context; if it cannot be lower-cased
to a known intent, the dispatched handler stores an error entry with intent
`general` under its own source tag and fails, and the overall call returns
a structured FAILED response — no exception escapes. -/
theorem c10_metadata_intent_override (content : Chars) (md : List (String × JsonVal))
    (v : JsonVal) (cresp : Chars) (hmo : Except PyExc Chars) (s : MemoryState)
    (cd iv fv cv : JsonVal)
    (hmdnd : (md.map Prod.fst).Nodup)
    (hmdv : dictGet md "intent" = some v)
    (hbad : ∀ st, pyLowerJv v = .ok st → DocumentIntent.ofValue st = none)
    (herr : ((classifierProcess content (.ok cresp) s).1).error = none)
    (hrt : ((classifierProcess content (.ok cresp) s).1).routingTarget
             = some (.str "json_agent")
         ∨ ((classifierProcess content (.ok cresp) s).1).routingTarget
             = some (.str "email_agent"))
    (hcls : ((classifierProcess content (.ok cresp) s).1).classification = some cd)
    (hiv : jvGetItem cd "intent" = .ok iv)
    (hfv : jvGetItem cd "format" = .ok fv)
    (hcv : jvGetItem cd "confidence" = .ok cv) :
    (∃ m mi, (processDocument content (some md) (.ok cresp) hmo s).1
        = .ok { success := false, message := m, data := none, memoryId := mi }) ∧
    (∃ eid erec rest, (processDocument content (some md) (.ok cresp) hmo s).2.records
        = (eid, erec) :: rest ∧
      erec.intent = "general" ∧
      (erec.source = "email_agent" ∨ erec.source = "json_agent") ∧
      jvHasKey erec.extracted_values "error" = true) := by
  unfold processDocument
  dsimp only
  rw [herr]
  simp only [Option.isSome_none, Bool.false_eq_true, if_false]
  rcases hrt with hrt | hrt
  · rw [hrt]
    simp only [Option.getD_some]
    rw [hcls]
    simp only [Option.getD_some]
    rw [hiv]
    dsimp only
    rw [hfv]
    dsimp only
    rw [hcv]
    dsimp only
    rw [if_pos (Or.inl trivial)]
    rw [dictGet_dictUpdate_of_mem _ md "intent" v hmdnd hmdv]
    simp only [Option.getD_some]
    rw [if_pos trivial]
    obtain ⟨hsucc, herr2, eid, erec, hrec, hint, hsrc, hkey⟩ :=
      handler_bad_intent jsonCfg content hmo v
        (classifierProcess content (.ok cresp) s).2 hbad
    rw [hsucc]
    simp only [Bool.false_eq_true, if_false]
    exact ⟨⟨_, _, rfl⟩, eid, erec, _, hrec, hint, Or.inr hsrc, hkey⟩
  · rw [hrt]
    simp only [Option.getD_some]
    rw [hcls]
    simp only [Option.getD_some]
    rw [hiv]
    dsimp only
    rw [hfv]
    dsimp only
    rw [hcv]
    dsimp only
    rw [if_pos (Or.inr trivial)]
    rw [dictGet_dictUpdate_of_mem _ md "intent" v hmdnd hmdv]
    simp only [Option.getD_some]
    rw [if_neg (show ¬(JsonVal.str "email_agent" = JsonVal.str "json_agent") by decide)]
    obtain ⟨hsucc, herr2, eid, erec, hrec, hint, hsrc, hkey⟩ :=
      handler_bad_intent emailCfg content hmo v
        (classifierProcess content (.ok cresp) s).2 hbad
    rw [hsucc]
    simp only [Bool.false_eq_true, if_false]
    exact ⟨⟨_, _, rfl⟩, eid, erec, _, hrec, hint, Or.inl hsrc, hkey⟩

/-- A valid classification routing to the email handler, used by the C10
scenario. -/
def c10resp : Chars :=
  "\x7b\"format\": \"email\", \"intent\": \"general\", \"confidence\": 1, \"reasoning\": \"r\", \"routing_target\": \"email_agent\"\x7d".toList

set_option maxRecDepth 10000 in
/-- Witness for C10 at a concrete run whose metadata intent is the unknown
string `banana`. -/
theorem c10_metadata_intent_override_witness :
    (∃ m mi, (processDocument ("c".toList) (some [("intent", .str "banana")])
        (.ok c10resp) (.ok ("\x7b\x7d".toList)) st0).1
        = .ok { success := false, message := m, data := none, memoryId := mi }) ∧
    (∃ eid erec rest, (processDocument ("c".toList) (some [("intent", .str "banana")])
        (.ok c10resp) (.ok ("\x7b\x7d".toList)) st0).2.records
        = (eid, erec) :: rest ∧
      erec.intent = "general" ∧
      (erec.source = "email_agent" ∨ erec.source = "json_agent") ∧
      jvHasKey erec.extracted_values "error" = true) :=
  c10_metadata_intent_override ("c".toList) [("intent", .str "banana")] (.str "banana")
    c10resp (.ok ("\x7b\x7d".toList)) st0 (classifierData c10resp) (.str "general")
    (.str "email") (.num 1 0)
    (by decide) (by decide)
    (fun st hst => by
      injection hst with h
      subst h
      decide)
    (by decide) (Or.inr (by decide)) (by decide) (by decide) (by decide) (by decide)
